import Mathlib

/-!
Formal model of the nickname generator `nick_gen.py`.

Strings are modelled as `List Char` (Python `str` over the ASCII range the
program works with, `ord` = `Char.toNat`).  Python `set` values are modelled
as duplicate-free lists built by `pySetAdd`; the unspecified iteration order
of a Python set is an explicit oracle parameter (`Oracles.order`).  The
process-wide pseudorandom generator seeded in `main` is likewise abstracted
into oracle streams (`Oracles.choice` for `random.choice`, `Oracles.sample`
for `random.sample`): a fixed seed fixes those streams.  Fallible operations
return `Option`/`Except`.  Python `float` values reaching the model
(`args.l33t`) are represented by their exact rational value; the program
only multiplies such a value by a small integer word length, and every
comparison or rounding on it is implemented on the reduced
numerator/denominator so that it evaluates by kernel reduction.
-/

/-- Characters stripped by Python `str.rstrip()` with no argument
(the ASCII whitespace characters relevant to word-list lines). -/
def pyIsSpace (c : Char) : Bool :=
  c == ' ' || c == '\t' || c == '\n' || c == '\r' || c == '\x0b' || c == '\x0c'

/-- Python `line.rstrip()`: drop trailing whitespace. -/
def rstrip (l : List Char) : List Char :=
  (l.reverse.dropWhile pyIsSpace).reverse

/-- Normalisation applied to every line in `get_words`:
`line.rstrip().lower()` (ASCII lowercasing, as for the word lists used). -/
def cleanWordOf (line : List Char) : List Char :=
  (rstrip line).map Char.toLower

/-- Character class of the regex `[A-Za-z0-9]`; `re.sub('[^A-Za-z0-9]', '', w)`
keeps exactly these characters. -/
def isAsciiAlnum (c : Char) : Bool :=
  decide (('A' ≤ c ∧ c ≤ 'Z') ∨ ('a' ≤ c ∧ c ≤ 'z') ∨ ('0' ≤ c ∧ c ≤ '9'))

/-- Decimal digits of a natural number, least significant first, with fuel
(the fuel makes the definition structurally recursive and kernel-reducible). -/
def decDigitsAux : Nat → Nat → List Nat
  | 0, _ => []
  | f + 1, n => if n < 10 then [n] else n % 10 :: decDigitsAux f (n / 10)

/-- Decimal digits of a natural number, least significant first. -/
def decDigits (n : Nat) : List Nat :=
  decDigitsAux (n + 1) n

/-- Python `str` of a natural number: its decimal digit string. -/
def natStr (n : Nat) : List Char :=
  ((decDigits n).map Nat.digitChar).reverse

/-- Value of a little-endian digit list (used only to prove `natStr` injective). -/
def decVal : List Nat → Nat
  | [] => 0
  | d :: ds => d + 10 * decVal ds

/-- Python `str` of an `int` (decimal, with a leading minus sign if negative). -/
def pyStrInt : Int → List Char
  | Int.ofNat n => natStr n
  | Int.negSucc n => '-' :: natStr (n + 1)

/-- Python `str` applied to an optional `int` (`str(None) = "None"`). -/
def pyStrOpt : Option Int → List Char
  | none => ['N', 'o', 'n', 'e']
  | some n => pyStrInt n

/-- ASCII weight of a word before rendering:
`sum(map(ord, re.sub('[^A-Za-z0-9]', '', word)))`. -/
def word2numVal (word : List Char) : Nat :=
  ((word.filter isAsciiAlnum).map Char.toNat).sum

/-- Model of `word2num`: the weight rendered as a decimal string,
`str(sum(map(ord, re.sub('[^A-Za-z0-9]', '', word))))`. -/
def word2num (word : List Char) : List Char :=
  natStr (word2numVal word)

/-- Configuration record produced by `argparse` in `get_args`, with the
parser's default values.  `l33t` holds the exact rational value of the
parsed float. -/
structure RawArgs where
  num : Option Int := none
  min : Int := 1
  max : Int := 30
  l33t : ℚ := 0
  seed : Option Int := none
  first : Option (List Char) := none
  adj_noun : Bool := false
  verb_noun : Bool := false
  noun_noun : Bool := false

/-- Python truthiness of `args.num` (`None` and `0` are falsy). -/
def numTruthy : Option Int → Bool
  | none => false
  | some n => n != 0

/-- Python truthiness of `args.first` (`None` and the empty string are falsy). -/
def firstTruthy : Option (List Char) → Bool
  | none => false
  | some s => !s.isEmpty

/-- Python truthiness of `args.l33t` (`0.0` is falsy). -/
def ratTruthy (r : ℚ) : Bool :=
  r.num != 0

/-- Float range check `0.0 <= args.l33t <= 1.0` from `get_args`, stated on
the exact rational value: for a reduced rational `r` (positive denominator),
`0 ≤ r.num ∧ r.num ≤ r.den` holds iff `0 ≤ r ≤ 1`. -/
def l33tInRange (r : ℚ) : Bool :=
  decide (0 ≤ r.num) && decide (r.num ≤ (r.den : Int))

/-- The validation failures `get_args` can report through `parser.error`
(each aborts the process with a usage message and a non-zero exit status). -/
inductive ArgError
  | numLow
  | minLow
  | maxLtMin
  | l33tRange
deriving DecidableEq

/-- Validation performed by `get_args` after parsing, in source order:
`if args.num and args.num < 97`, `if args.min < 1`, `if args.max < args.min`,
`if not 0.0 <= args.l33t <= 1.0`.  Returns the first failure, or `none`
when the configuration is accepted. -/
def get_args_check (a : RawArgs) : Option ArgError :=
  if numTruthy a.num ∧ a.num.getD 0 < 97 then some .numLow
  else if a.min < 1 then some .minLow
  else if a.max < a.min then some .maxLtMin
  else if !l33tInRange a.l33t then some .l33tRange
  else none

/-- Python `set.add`: the model keeps a duplicate-free list, appending a
new element (iteration order is supplied separately by an oracle). -/
def pySetAdd (l : List (List Char)) (w : List Char) : List (List Char) :=
  if w ∈ l then l else l ++ [w]

/-- The characters the `re` module treats specially in a pattern. -/
def reSpecial (c : Char) : Bool :=
  c == '.' || c == '^' || c == '$' || c == '*' || c == '+' || c == '?' ||
    c == '{' || c == '}' || c == '[' || c == ']' || c == '\\' || c == '|' ||
    c == '(' || c == ')'

/-- Anchored matcher for `re.match(pattern, word)` on the pattern subset the
development reasons about: a sequence of literal characters and the wildcard
dot, where dot matches any character except a newline and every other
character matches itself.  Within this subset (which contains every
metacharacter-free pattern, and the dot used by the counterexample) the
model agrees with the `re` module; remaining metacharacters are treated as
literals, and no theorem's conclusion depends on their behaviour. -/
def reMatchLit : List Char → List Char → Bool
  | [], _ => true
  | _ :: _, [] => false
  | p :: ps, c :: cs => (if p = '.' then c != '\n' else p == c) && reMatchLit ps cs

/-- Body of the `for line in hf` loop of `get_words`:
`re.match(f'{args.first.lower()}', clean_word)` gates the word, then the
weight or length filter applies. -/
def get_words_step (ws0 : Option Int) (a : RawArgs) (words : List (List Char))
    (line : List Char) : List (List Char) :=
  let clean_word := cleanWordOf line
  if firstTruthy a.first && !(reMatchLit ((a.first.getD []).map Char.toLower) clean_word) then
    words
  else if numTruthy a.num then
    (if word2num clean_word = pyStrOpt ws0 then pySetAdd words clean_word else words)
  else if a.min ≤ (clean_word.length : Int) ∧ (clean_word.length : Int) ≤ a.max then
    pySetAdd words clean_word
  else
    words

/-- Model of `get_words(file_name, weight_sum, args)` after the file has been
read: fold the per-line filter over the lines, starting from the empty set. -/
def get_words (lines : List (List Char)) (weight_sum : Option Int) (a : RawArgs) :
    List (List Char) :=
  lines.foldl (get_words_step weight_sum a) []

/-- Python `round(n * r)` for a natural number `n` and the exact rational
value `r` of a float, as integer arithmetic on `a / b = n * r`:
round half to even (banker's rounding, as Python `round` does).  The claims
only exercise values of `r` (such as `0.0` and `1.0`) for which the float
product `n * r` is exact, so no further float rounding is modelled. -/
def pyRoundMul (n : Nat) (r : ℚ) : Int :=
  let a : Int := (n : Int) * r.num
  let b : Int := (r.den : Int)
  let q := Int.fdiv a b
  let rem := a - q * b
  if 2 * rem < b then q
  else if b < 2 * rem then q + 1
  else if q % 2 = 0 then q else q + 1

/-- Sample size chosen by `word2l33t`:
`percent = round(len(word) * get_args().l33t)`. -/
def l33tSize (word : List Char) (r : ℚ) : Int :=
  pyRoundMul word.length r

/-- Number of binary digits of `n` beyond 53 bits, with fuel for kernel
reducibility: `ebitsAux f n` counts how often `n` must be halved before it
drops below `2 ^ 53` (zero for `n < 2 ^ 53`). -/
def ebitsAux : Nat → Nat → Nat
  | 0, _ => 0
  | f + 1, n => if n < 2 ^ 53 then 0 else ebitsAux f (n / 2) + 1

/-- Number of low-order bits a 53-bit significand cannot represent. -/
def ebits (n : Nat) : Nat :=
  ebitsAux n n

/-- Nearest IEEE-754 double to the natural number `n` (ties to even), as a
natural number: `n` is rounded to a multiple of `2 ^ ebits n` with a 53-bit
quotient.  Exact for `n < 2 ^ 53`. -/
def round53 (n : Nat) : Nat :=
  let e := ebits n
  if e = 0 then n
  else
    let q := n / 2 ^ e
    let r := n % 2 ^ e
    let h := 2 ^ (e - 1)
    (if h < r ∨ (r = h ∧ q % 2 = 1) then q + 1 else q) * 2 ^ e

/-- CPython `int(n / 2)` for a non-negative `int` `n`: true division `n / 2`
produces the double nearest to `n / 2` (ties to even), and `int` truncates.
The nearest double to `n / 2` is `round53 n / 2`, and for `n ≥ 2 ^ 53` that
quotient is an integer; for `n < 2 ^ 53` the double is exact and truncation
is the floor.  In both cases the value is `round53 n / 2` in `Nat` — unless
that rounded quotient reaches `2 ^ 1024`, beyond the largest double, in
which case the division raises `OverflowError` (`none`); checked against
CPython, which accepts `2 ^ 1025 - 2 ^ 972` and raises at
`2 ^ 1025 - 2 ^ 971`. -/
def pyIntHalf (n : Nat) : Option Nat :=
  if 2 ^ 1024 ≤ round53 n / 2 then none else some (round53 n / 2)

/-- CPython `int(n / 2)` on `int` values of either sign (float division and
`int` truncation are both symmetric about zero), propagating the
`OverflowError` of `pyIntHalf`.  Only non-negative values are reachable in
the program, as `get_args` rejects `0 < num < 97`. -/
def pyHalfInt (n : Int) : Option Int :=
  if 0 ≤ n then (pyIntHalf n.toNat).map fun m => (m : Int)
  else (pyIntHalf (-n).toNat).map fun m => -(m : Int)

/-- Weight-splitting prologue of `get_duos`:
`num1 = num2 = args.num`, then `if args.num: num1 = int(args.num / 2);
num2 = args.num - num1`.  A `none` result is the uncaught `OverflowError`
of the float division, which aborts the program with a traceback. -/
def duoNums (num : Option Int) : Option (Option Int × Option Int) :=
  if numTruthy num then
    let n := num.getD 0
    match pyHalfInt n with
    | none => none
    | some h1 => some (some h1, some (n - h1))
  else some (num, num)

/-- The substitution table `g_l33t`, keyed by one-character strings. -/
def g_l33t : List (List Char × List Char) :=
  [(['A'], ['4']), (['B'], ['|', '3']), (['C'], ['(']), (['D'], ['|', ')']),
   (['E'], ['3']), (['F'], ['|', '=']), (['G'], ['(', '-']),
   (['H'], ['|', '-', '|']), (['I'], ['!']), (['J'], ['_', '|']),
   (['K'], ['|', '<']), (['L'], ['1']), (['M'], ['|', 'v', '|']),
   (['N'], ['~']), (['O'], ['0']), (['P'], ['|', '*']), (['Q'], ['0', '_']),
   (['R'], ['|', '2']), (['S'], ['5']), (['T'], ['+']), (['U'], ['|', '_', '|']),
   (['V'], ['|', '/']), (['W'], ['\'', '/', '/']), (['X'], ['>', '<']),
   (['Y'], ['\'', '/']), (['Z'], ['2'])]

/-- Loop body of `word2l33t`: for each sampled index `i`, replace
`new_word[i]` by `g_l33t[new_word[i].upper()]`.  A missing table entry is a
`KeyError` (`none`); an out-of-range index would be an `IndexError`
(also `none`, unreachable for valid samples). -/
def l33tApply : List (List Char) → List Nat → Option (List (List Char))
  | nw, [] => some nw
  | nw, i :: rest =>
    match nw[i]? with
    | none => none
    | some e =>
      match g_l33t.lookup (e.map Char.toUpper) with
      | none => none
      | some rep => l33tApply (nw.set i rep) rest

/-- Model of `word2l33t(word)` given the outcome `sample` of
`random.sample(range(len(word)), percent)`: start from the word as a list of
one-character strings, substitute at each sampled index, and join. -/
def word2l33t (word : List Char) (sample : List Nat) : Option (List Char) :=
  (l33tApply (word.map fun c => [c]) sample).map List.flatten

/-- Possible outcomes of `random.sample(range(n), k)`: `k` distinct
positions, each below `n`, in any order. -/
def ValidSample (n k : Nat) (s : List Nat) : Prop :=
  s.length = k ∧ s.Nodup ∧ ∀ i ∈ s, i < n

instance (n k : Nat) (s : List Nat) : Decidable (ValidSample n k s) := by
  unfold ValidSample
  infer_instance

/-- Observable output actions of `main`: text written to stdout, and the
blocking `input()` pause. -/
inductive OutEvent
  | text (s : List Char)
  | pause
deriving DecidableEq

/-- Python `f'{word:<20}'`: left-justify to 20 columns (wider words pass
through unchanged). -/
def pad20 (w : List Char) : List Char :=
  w ++ List.replicate (20 - w.length) ' '

/-- The two-space column separator `end='  '`. -/
def sp2 : List Char := [' ', ' ']

/-- Oracles standing for the runtime behaviour `main` does not control
through its own inputs: `order` is the iteration order of a Python set of
strings (salted string hashing makes it vary between processes), `choice`
and `sample` are the streams of outcomes of `random.choice` and
`random.sample` drawn from the generator seeded with `--seed` (indexed by
call number). -/
structure Oracles where
  order : List (List Char) → List (List Char)
  choice : Nat → Nat
  sample : Nat → Nat → Nat → List Nat

/-- Outcome of one invocation of `main`: a normal run with its output events
(process exit status zero), an error exit through `parser.error`/`sys.exit`
(non-zero exit status), or an uncaught exception (`KeyError` in
`word2l33t`). -/
inductive MainResult
  | ok (evs : List OutEvent)
  | exitErr (msg : List Char)
  | crash
deriving DecidableEq

/-- The output loop of `main`, starting from `enumerate(words, start=1)`:
every word is leet-transformed when `args.l33t` is truthy; words at indices
not divisible by 5 are printed left-justified to 20 columns with a
two-space terminator, every fifth word is printed bare with a newline and
followed by a blocking `input()`. -/
def printLoop (a : RawArgs) (o : Oracles) : Nat → List (List Char) → Option (List OutEvent)
  | _, [] => some []
  | i, w :: rest =>
    let wt : Option (List Char) :=
      if ratTruthy a.l33t then word2l33t w (o.sample i w.length (l33tSize w a.l33t).toNat)
      else some w
    match wt with
    | none => none
    | some w2 =>
      match printLoop a o (i + 1) rest with
      | none => none
      | some evs =>
        some ((if i % 5 ≠ 0 then [OutEvent.text (pad20 w2 ++ sp2)]
               else [OutEvent.text (w2 ++ ['\n']), OutEvent.pause]) ++ evs)

/-- Structural description of the event stream the output loop actually
produces, five words per row: the first four words of a full row are
left-justified to 20 columns and followed by two spaces, the fifth is
printed bare with a newline and followed by a pause; a trailing partial
row prints all of its words in the padded two-space format. -/
def gridRender : List (List Char) → List OutEvent
  | [] => []
  | w1 :: w2 :: w3 :: w4 :: w5 :: rest =>
    [OutEvent.text (pad20 w1 ++ sp2), OutEvent.text (pad20 w2 ++ sp2),
     OutEvent.text (pad20 w3 ++ sp2), OutEvent.text (pad20 w4 ++ sp2),
     OutEvent.text (w5 ++ ['\n']), OutEvent.pause] ++ gridRender rest
  | ws => ws.map fun w => OutEvent.text (pad20 w ++ sp2)

/-- Modelled from the spec claim, not from the code (refinement target for
comparison with the loop of `main`): every word — the fifth of a row
included — is left-justified to a fixed 20-column width, with two trailing
spaces between columns, a newline after every completed group of five, and
then a blocking pause. -/
def claimGrid : List (List Char) → List OutEvent
  | [] => []
  | w1 :: w2 :: w3 :: w4 :: w5 :: rest =>
    [OutEvent.text (pad20 w1 ++ sp2), OutEvent.text (pad20 w2 ++ sp2),
     OutEvent.text (pad20 w3 ++ sp2), OutEvent.text (pad20 w4 ++ sp2),
     OutEvent.text (pad20 w5 ++ ['\n']), OutEvent.pause] ++ claimGrid rest
  | ws => (ws.map fun w => OutEvent.text (pad20 w)).intersperse (OutEvent.text sp2)

/-- Characters written to stdout by a stream of output events. -/
def flattenEvs (evs : List OutEvent) : List Char :=
  (evs.map fun ev => match ev with
    | OutEvent.text s => s
    | OutEvent.pause => []).flatten

/-- File name `words.txt` of the single-word source. -/
def words_file : List Char := "words.txt".toList

/-- File name `adjectives.txt` of the adjective source. -/
def adjs_file : List Char := "adjectives.txt".toList

/-- File name `verbs.txt` of the verb source. -/
def verb_file : List Char := "verbs.txt".toList

/-- File name `nouns.txt` of the noun source. -/
def noun_file : List Char := "nouns.txt".toList

/-- Message passed to `sys.exit` by `get_handle` for a missing word list. -/
def missingMsg (name : List Char) : List Char :=
  "[!] ".toList ++ name ++
    " is missing, be sure you downloaded it and put in the same place with nick_gen.py".toList

/-- Message printed by `main` when the final word set is empty. -/
def noWordsMsg : List Char :=
  ("[!] Sorry, no words were found suitable for the parameters\n" ++
    "Try another parameters or expand .txt files with new words").toList

/-- Usage message of `parser.error` (the exact argparse text is not part of
any claim; the variant only records which check failed). -/
def argErrMsg : ArgError → List Char
  | .numLow => "--num must be > 96".toList
  | .minLow => "--min must be > 0".toList
  | .maxLtMin => "--max must be >= --min".toList
  | .l33tRange => "--l33t must be between 0.0 and 1.0".toList

/-- Composition `get_words(file_name, ...)` including `get_handle`: a missing
file terminates the process through `sys.exit`. -/
def runGetWords (fs : List Char → Option (List (List Char))) (name : List Char)
    (ws0 : Option Int) (a : RawArgs) : Except (List Char) (List (List Char)) :=
  match fs name with
  | none => .error (missingMsg name)
  | some lines => .ok (get_words lines ws0 a)

/-- Model of `get_duos(first, second, args)`: split the weight target, filter
both sources, and when both sets are non-empty build
`set(random.choice(tuple(words1)) + word for word in words2)` — one fresh
`random.choice` outcome per word of `words2`, drawn from the tuple of
`words1` in its set iteration order; otherwise fall through and return
`None`.  The outer `none` is the uncaught `OverflowError` of the weight
split at targets beyond the double range. -/
def get_duos (fs : List Char → Option (List (List Char))) (first second : List Char)
    (a : RawArgs) (o : Oracles) :
    Option (Except (List Char) (Option (List (List Char)))) :=
  match duoNums a.num with
  | none => none
  | some nums =>
    match runGetWords fs first nums.1 a with
    | .error m => some (.error m)
    | .ok words1 =>
      match runGetWords fs second nums.2 a with
      | .error m => some (.error m)
      | .ok words2 =>
        if !words1.isEmpty && !words2.isEmpty then
          let t1 := o.order words1
          some (.ok (some (((o.order words2).enum).foldl
            (fun acc p => pySetAdd acc (t1.getD (o.choice p.1) [] ++ p.2)) [])))
        else some (.ok none)

/-- The pair of word-list files selected by the mode flags of `main`, in the
priority order of its `if/elif` chain; `none` means single-word mode. -/
def duoFiles (a : RawArgs) : Option (List Char × List Char) :=
  if a.adj_noun then some (adjs_file, noun_file)
  else if a.verb_noun then some (verb_file, noun_file)
  else if a.noun_noun then some (noun_file, noun_file)
  else none

/-- Python truthiness of the `words` variable of `main`: `None` (duo mode
fell through) and the empty set are falsy. -/
def wordsTruthy : Option (List (List Char)) → Bool
  | none => false
  | some l => !l.isEmpty

/-- Model of one invocation of `main` on a parsed configuration `a`, a file
system `fs` mapping file names to their lines, and the oracles for set
iteration order and the seeded random streams.  A `MainResult.ok` run
returns from `main` normally and the process exits with status zero. -/
def mainModel (a : RawArgs) (fs : List Char → Option (List (List Char)))
    (o : Oracles) : MainResult :=
  match get_args_check a with
  | some e => .exitErr (argErrMsg e)
  | none =>
    let wordsE : Option (Except (List Char) (Option (List (List Char)))) :=
      match duoFiles a with
      | some p => get_duos fs p.1 p.2 a o
      | none => some ((runGetWords fs words_file a.num a).map some)
    match wordsE with
    | none => .crash
    | some (.error m) => .exitErr m
    | some (.ok wopt) =>
      if wordsTruthy wopt then
        match printLoop a o 1 (o.order (wopt.getD [])) with
        | some evs => .ok evs
        | none => .crash
      else .ok [.text noWordsMsg]

/-- Independent restatement of the weight of a word, following the spec
wording directly: walk the word and add the code point of every ASCII
letter or digit. -/
def asciiWeightSpec : List Char → Nat
  | [] => 0
  | c :: cs => (if isAsciiAlnum c then c.toNat else 0) + asciiWeightSpec cs

/-- The per-word contract of the Word Filter: a set first pattern matches
the word at its start, and — whenever the pattern is free of regex
metacharacters — the word therefore starts with it (case-insensitively);
with a truthy weight flag the word's letter/digit code-point sum equals the
weight target passed for this source; otherwise the length bounds hold. -/
def WordPred (ws0 : Option Int) (a : RawArgs) (w : List Char) : Prop :=
  (firstTruthy a.first = true →
    reMatchLit ((a.first.getD []).map Char.toLower) w = true ∧
    ((∀ c ∈ (a.first.getD []).map Char.toLower, reSpecial c = false) →
      ((a.first.getD []).map Char.toLower).isPrefixOf w = true))
  ∧ (numTruthy a.num = true → ∃ t : Int, ws0 = some t ∧ (word2numVal w : Int) = t)
  ∧ (numTruthy a.num = false →
      a.min ≤ (w.length : Int) ∧ (w.length : Int) ≤ a.max)

/-- An order oracle is valid when it only reorders the underlying set. -/
def ValidOrder (f : List (List Char) → List (List Char)) : Prop :=
  ∀ l, (f l).Perm l

lemma decDigitsAux_lt10 : ∀ (f n : Nat), ∀ d ∈ decDigitsAux f n, d < 10
  | 0, _, d, h => by simp [decDigitsAux] at h
  | f + 1, n, d, h => by
    simp only [decDigitsAux] at h
    split at h
    next hlt => rw [List.mem_singleton.1 h]; exact hlt
    next hge =>
      rcases List.mem_cons.1 h with h2 | h2
      · rw [h2]; exact Nat.mod_lt _ (by decide)
      · exact decDigitsAux_lt10 f (n / 10) d h2

lemma decVal_decDigitsAux : ∀ (f n : Nat), n ≤ f → decVal (decDigitsAux (f + 1) n) = n := by
  intro f
  induction f using Nat.strong_induction_on with
  | _ f ih =>
    intro n hn
    simp only [decDigitsAux]
    split
    · simp [decVal]
    next hge =>
      obtain ⟨f2, rfl⟩ : ∃ f2, f = f2 + 1 := ⟨f - 1, by omega⟩
      rw [decVal, ih f2 (by omega) (n / 10) (by omega)]
      omega

lemma decVal_decDigits (n : Nat) : decVal (decDigits n) = n :=
  decVal_decDigitsAux n n (le_refl n)

lemma decDigits_inj {a b : Nat} (h : decDigits a = decDigits b) : a = b := by
  have h2 := congrArg decVal h
  rwa [decVal_decDigits, decVal_decDigits] at h2

lemma digitChar_inj_lt : ∀ a, a < 10 → ∀ b, b < 10 →
    Nat.digitChar a = Nat.digitChar b → a = b := by decide

lemma digitChar_digit : ∀ d, d < 10 → '0' ≤ Nat.digitChar d ∧ Nat.digitChar d ≤ '9' := by
  decide

lemma map_digitChar_inj : ∀ (l1 l2 : List Nat), (∀ d ∈ l1, d < 10) → (∀ d ∈ l2, d < 10) →
    l1.map Nat.digitChar = l2.map Nat.digitChar → l1 = l2
  | [], [], _, _, _ => rfl
  | [], _ :: _, _, _, h => by simp at h
  | _ :: _, [], _, _, h => by simp at h
  | d1 :: ds1, d2 :: ds2, h1, h2, h => by
    simp only [List.map_cons, List.cons.injEq] at h
    have hd : d1 = d2 :=
      digitChar_inj_lt d1 (h1 d1 (by simp)) d2 (h2 d2 (by simp)) h.1
    have ht : ds1 = ds2 :=
      map_digitChar_inj ds1 ds2 (fun d hd2 => h1 d (by simp [hd2]))
        (fun d hd2 => h2 d (by simp [hd2])) h.2
    rw [hd, ht]

lemma natStr_inj {a b : Nat} (h : natStr a = natStr b) : a = b := by
  unfold natStr at h
  have h2 := List.reverse_injective h
  unfold decDigits at h2
  exact decDigits_inj (map_digitChar_inj _ _ (decDigitsAux_lt10 _ _) (decDigitsAux_lt10 _ _) h2)

lemma natStr_mem_digit {c : Char} {n : Nat} (h : c ∈ natStr n) : '0' ≤ c ∧ c ≤ '9' := by
  unfold natStr at h
  rw [List.mem_reverse] at h
  rcases List.mem_map.1 h with ⟨d, hd, rfl⟩
  exact digitChar_digit d (decDigitsAux_lt10 _ _ d hd)

lemma natStr_eq_pyStrOpt {s : Nat} {ws0 : Option Int} (h : natStr s = pyStrOpt ws0) :
    ws0 = some (s : Int) := by
  match ws0 with
  | none =>
    exfalso
    have hN : 'N' ∈ natStr s := by rw [h]; simp [pyStrOpt]
    have hd := natStr_mem_digit hN
    revert hd
    decide
  | some (Int.ofNat m) =>
    simp only [pyStrOpt, pyStrInt] at h
    rw [natStr_inj h]
    rfl
  | some (Int.negSucc m) =>
    exfalso
    have hm : '-' ∈ natStr s := by rw [h]; simp [pyStrOpt, pyStrInt]
    have hd := natStr_mem_digit hm
    revert hd
    decide

lemma word2numVal_eq_spec (w : List Char) : word2numVal w = asciiWeightSpec w := by
  induction w with
  | nil => rfl
  | cons c cs ih =>
    simp only [word2numVal, asciiWeightSpec, List.filter_cons] at *
    split
    · simpa using ih
    next hc =>
      rw [Bool.not_eq_true] at hc
      simp [hc, ih]

/-- C2: for every string `w`, `word2num w` is the sum of the code points of
the characters of `w` that remain after removing every character that is not
an ASCII letter or digit, rendered as a decimal string (`asciiWeightSpec` is
the spec-side restatement of that sum). -/
theorem word2num_spec (w : List Char) : word2num w = natStr (asciiWeightSpec w) := by
  rw [word2num, word2numVal_eq_spec]

lemma reMatchLit_eq_isPrefixOf : ∀ (p w : List Char),
    (∀ c ∈ p, reSpecial c = false) → reMatchLit p w = p.isPrefixOf w
  | [], w, _ => by cases w <;> rfl
  | _ :: _, [], _ => rfl
  | p :: ps, c :: cs, hs => by
    have hpd : p ≠ '.' := by
      intro he
      have h2 := hs p (by simp)
      rw [he] at h2
      simp [reSpecial] at h2
    have ih := reMatchLit_eq_isPrefixOf ps cs (fun c2 hc2 => hs c2 (by simp [hc2]))
    simp only [reMatchLit, List.isPrefixOf, if_neg hpd, ih]

lemma mem_pySetAdd {l : List (List Char)} {x w : List Char} (h : w ∈ pySetAdd l x) :
    w ∈ l ∨ w = x := by
  unfold pySetAdd at h
  split at h
  · exact Or.inl h
  · rcases List.mem_append.1 h with h2 | h2
    · exact Or.inl h2
    · exact Or.inr (List.mem_singleton.1 h2)

lemma mem_get_words_step {ws0 : Option Int} {a : RawArgs} {words : List (List Char)}
    {line w : List Char} (h : w ∈ get_words_step ws0 a words line) :
    w ∈ words ∨ WordPred ws0 a w := by
  simp only [get_words_step] at h
  split at h
  · exact Or.inl h
  next hskip =>
    rw [Bool.and_eq_true, Bool.not_eq_true'] at hskip
    push_neg at hskip
    split at h
    next hnum =>
      split at h
      next hstr =>
        rcases mem_pySetAdd h with h2 | h2
        · exact Or.inl h2
        · subst h2
          refine Or.inr ⟨?_, ?_, ?_⟩
          · intro hft
            have hp2 : reMatchLit ((a.first.getD []).map Char.toLower) (cleanWordOf line)
                = true := by
              simpa using hskip hft
            refine ⟨hp2, fun hns => ?_⟩
            rw [← reMatchLit_eq_isPrefixOf _ _ hns]
            exact hp2
          · intro _
            exact ⟨(word2numVal (cleanWordOf line) : Int), natStr_eq_pyStrOpt hstr, rfl⟩
          · intro hnf
            rw [hnum] at hnf
            cases hnf
      · exact Or.inl h
    next hnum =>
      split at h
      next hlen =>
        rcases mem_pySetAdd h with h2 | h2
        · exact Or.inl h2
        · subst h2
          refine Or.inr ⟨?_, ?_, fun _ => hlen⟩
          · intro hft
            have hp2 : reMatchLit ((a.first.getD []).map Char.toLower) (cleanWordOf line)
                = true := by
              simpa using hskip hft
            refine ⟨hp2, fun hns => ?_⟩
            rw [← reMatchLit_eq_isPrefixOf _ _ hns]
            exact hp2
          · intro ht
            rw [Bool.not_eq_true] at hnum
            rw [hnum] at ht
            cases ht
      · exact Or.inl h

lemma mem_get_words_fold {ws0 : Option Int} {a : RawArgs} :
    ∀ (lines : List (List Char)) (acc : List (List Char)) (w : List Char),
      w ∈ lines.foldl (get_words_step ws0 a) acc → w ∈ acc ∨ WordPred ws0 a w
  | [], _, _, h => Or.inl h
  | line :: rest, acc, w, h => by
    rw [List.foldl_cons] at h
    rcases mem_get_words_fold rest _ w h with h2 | h2
    · exact mem_get_words_step h2
    · exact Or.inr h2

/-- C1 counterexample: the frozen claim reads `first` as an anchored prefix,
but the program passes it to `re.match` as a regex pattern.  With the valid
configuration `--first .` the pattern is the wildcard dot, so the word ab
is kept (as in CPython, where `re.match` on the dot succeeds on ab) even
though it does not start with the character '.'. -/
theorem get_words_first_counterexample :
    get_args_check { first := some ['.'] } = none ∧
    firstTruthy (some ['.']) = true ∧
    ['a', 'b'] ∈ get_words [['a', 'b']] none { first := some ['.'] } ∧
    ((['.'] : List Char).map Char.toLower).isPrefixOf ['a', 'b'] = false := by decide

/-- C1 amended: Word Filter contract.  For every valid configuration, every
word source and every weight target passed to `get_words`, each word of the
output satisfies the active predicate: a set `first` value matches the word
at its start as a regex pattern — which is an anchored case-insensitive
prefix match with `first` whenever `first` contains no regex
metacharacter; with a truthy weight flag the word's letter/digit code-point
sum equals the weight target exactly (and no length bound is imposed);
otherwise the word's length lies between `min` and `max` inclusive. -/
theorem get_words_spec (a : RawArgs) (lines : List (List Char)) (ws0 : Option Int)
    (w : List Char) (_hvalid : get_args_check a = none)
    (hmem : w ∈ get_words lines ws0 a) : WordPred ws0 a w := by
  rcases mem_get_words_fold lines [] w hmem with h | h
  · cases h
  · exact h

/-- C1 witness: a concrete valid weight-mode configuration with a first
character, and the concrete word that survives the filter. -/
theorem get_words_spec_witness :
    (get_args_check { num := some 195, first := some ['a'] } = none ∧
      ['a', 'b'] ∈ get_words [['a', 'b'], ['c', 'd']] (some 195)
        { num := some 195, first := some ['a'] }) ∧
    WordPred (some 195) { num := some 195, first := some ['a'] } ['a', 'b'] :=
  ⟨⟨by decide, by decide⟩,
    get_words_spec { num := some 195, first := some ['a'] } [['a', 'b'], ['c', 'd']]
      (some 195) ['a', 'b'] (by decide) (by decide)⟩

/-- C5 counterexample: the claim says every given `numWeight` below 97 is
rejected, but the CLI input `--num 0` is given, below 97, and accepted,
because `if args.num and args.num < 97` skips the check for the falsy 0. -/
theorem num_check_counterexample :
    ({ num := some 0 } : RawArgs).num = some 0 ∧ (0 : Int) < 97 ∧
    get_args_check { num := some 0 } = none := by decide

/-- C5 amended: a given numWeight that is non-zero and below 97 fails
argument parsing with the num error (a usage error and non-zero exit);
the num check passes whenever numWeight is absent, zero, or at least 97. -/
theorem num_check_amended (a : RawArgs) :
    ((∃ n : Int, a.num = some n ∧ n ≠ 0 ∧ n < 97) →
      get_args_check a = some ArgError.numLow) ∧
    ((a.num = none ∨ a.num = some 0 ∨ ∃ n : Int, a.num = some n ∧ 97 ≤ n) →
      get_args_check a ≠ some ArgError.numLow) := by
  constructor
  · rintro ⟨n, hn, hnz, hlt⟩
    unfold get_args_check
    rw [if_pos]
    exact ⟨by simp [numTruthy, hn, hnz], by simp [hn, hlt]⟩
  · intro hcase
    have hc : ¬(numTruthy a.num = true ∧ a.num.getD 0 < 97) := by
      rcases hcase with h | h | ⟨n, hn, hge⟩
      · rw [h]; simp [numTruthy]
      · rw [h]; simp [numTruthy]
      · rw [hn]; simp [numTruthy]; omega
    unfold get_args_check
    rw [if_neg hc]
    split
    · simp
    · split
      · simp
      · split <;> simp

/-- C5 witness: `--num 50` is rejected by the num check while `--num 100`
is not. -/
theorem num_check_amended_witness :
    get_args_check { num := some 50 } = some ArgError.numLow ∧
    get_args_check { num := some 100 } ≠ some ArgError.numLow :=
  ⟨(num_check_amended { num := some 50 }).1 ⟨50, rfl, by decide, by decide⟩,
    (num_check_amended { num := some 100 }).2 (Or.inr (Or.inr ⟨100, rfl, by decide⟩))⟩

/-- C10: with the CLI input `--num 0` argument validation succeeds (the
check is skipped for the falsy zero), and `get_words` applies the
length-bound filter, behaving exactly as if no weight had been given. -/
theorem num_zero_spec :
    get_args_check { num := some 0 } = none ∧
    ∀ (lines : List (List Char)) (a : RawArgs), a.num = some 0 →
      get_words lines a.num a = get_words lines none { a with num := none } := by
  refine ⟨by decide, ?_⟩
  intro lines a ha
  unfold get_words
  congr 1
  funext words line
  simp [get_words_step, numTruthy, ha]

/-- C10 witness: a concrete run of both filters on a one-line source. -/
theorem num_zero_spec_witness :
    get_args_check { num := some 0 } = none ∧
    get_words [['a']] (some 0) { num := some 0 } =
      get_words [['a']] none { ({ num := some 0 } : RawArgs) with num := none } :=
  ⟨num_zero_spec.1, num_zero_spec.2 [['a']] { num := some 0 } rfl⟩

lemma ebits_eq_zero {n : Nat} (h : n < 2 ^ 53) : ebits n = 0 := by
  unfold ebits
  cases n with
  | zero => rfl
  | succ m => simp only [ebitsAux]; rw [if_pos h]

lemma round53_of_le {n : Nat} (h : n ≤ 2 ^ 53) : round53 n = n := by
  rcases Nat.lt_or_ge n (2 ^ 53) with h2 | h2
  · unfold round53
    simp [ebits_eq_zero h2]
  · have hn : n = 2 ^ 53 := le_antisymm h h2
    subst hn
    decide

lemma pyIntHalf_of_le {n : Nat} (h : n ≤ 2 ^ 53) : pyIntHalf n = some (n / 2) := by
  unfold pyIntHalf
  rw [round53_of_le h]
  have hlt : ¬ (2 ^ 1024 ≤ n / 2) := by
    have h53 : (2 : Nat) ^ 53 = 9007199254740992 := by norm_num
    have h1024 : (9007199254740992 : Nat) < 2 ^ 1024 := by norm_num
    omega
  rw [if_neg hlt]

set_option maxRecDepth 20000

/-- C3 counterexample: the claim asserts `half1 = floor(target/2)` for every
positive target including very large ones, but at the target
`2 ^ 53 + 3 = 9007199254740995` the float division `int(args.num / 2)`
rounds `target / 2` to the nearest double (ties to even) and yields
`4503599627370498`, one more than the floor `4503599627370497` (checked
against CPython), so `get_duos` does not use the claimed floor split. -/
theorem duo_half_counterexample :
    (0 : Int) < 9007199254740995 ∧
    duoNums (some 9007199254740995) ≠
      some (some (((9007199254740995 : Nat) / 2 : Nat) : Int),
        some ((9007199254740995 : Int) - (((9007199254740995 : Nat) / 2 : Nat) : Int))) := by
  decide

/-- C3 amended: for every non-zero weight target `t` at which the float
division succeeds (`pyHalfInt t = some h1`), `get_duos` filters the first
source against `half1 = int(t / 2)` and the second against
`half2 = t - half1`, so `half1 + half2 = t`, and `half1` equals
`floor(t / 2)` for every positive target up to `2 ^ 53` though not beyond
(see the counterexample); for targets whose quotient exceeds the double
range the division raises `OverflowError`, no split is computed, and the
program aborts with a traceback. -/
theorem duo_half_amended (t : Int) (ht : t ≠ 0) :
    (∀ h1 : Int, pyHalfInt t = some h1 →
      duoNums (some t) = some (some h1, some (t - h1)) ∧ h1 + (t - h1) = t ∧
      (0 < t → t ≤ 2 ^ 53 → h1 = ((t.toNat / 2 : Nat) : Int))) ∧
    (pyHalfInt t = none → duoNums (some t) = none) := by
  constructor
  · intro h1 hh1
    refine ⟨?_, by omega, ?_⟩
    · unfold duoNums
      rw [if_pos (by simp [numTruthy, ht])]
      simp [hh1]
    · intro hpos hle
      have h53 : (2 : Int) ^ 53 = 9007199254740992 := by norm_num
      have hle2 : t.toNat ≤ 2 ^ 53 := by
        have h53n : (2 : Nat) ^ 53 = 9007199254740992 := by norm_num
        omega
      rw [pyHalfInt, if_pos (le_of_lt hpos), pyIntHalf_of_le hle2] at hh1
      simp at hh1
      omega
  · intro hn
    unfold duoNums
    rw [if_pos (by simp [numTruthy, ht])]
    simp [hn]

/-- C3 witness: the amended statement at the concrete target 100, where the
split is 50 + 50 and the floor is reached, and at the target `10 ^ 400`,
where CPython raises `OverflowError` and no split exists. -/
theorem duo_half_amended_witness :
    (duoNums (some 100) = some (some 50, some (100 - 50)) ∧
      (50 : Int) + (100 - 50) = 100 ∧
      (0 < (100 : Int) → (100 : Int) ≤ 2 ^ 53 →
        (50 : Int) = (((100 : Int).toNat / 2 : Nat) : Int))) ∧
    duoNums (some ((10 ^ 400 : Nat) : Int)) = none :=
  ⟨(duo_half_amended 100 (by decide)).1 50 (by decide),
   (duo_half_amended ((10 ^ 400 : Nat) : Int) (by decide)).2 (by decide)⟩

lemma l33tApply_ok : ∀ (s : List Nat) (nw : List (List Char)), s.Nodup →
    (∀ i ∈ s, ∃ e, nw[i]? = some e ∧ (g_l33t.lookup (e.map Char.toUpper)).isSome) →
    ∃ nwF, l33tApply nw s = some nwF ∧
      (∀ j, j ∉ s → nwF[j]? = nw[j]?) ∧
      (∀ j ∈ s, ∀ e, nw[j]? = some e → nwF[j]? = g_l33t.lookup (e.map Char.toUpper))
  | [], nw, _, _ =>
    ⟨nw, rfl, fun _ _ => rfl, fun j hj => absurd hj (List.not_mem_nil j)⟩
  | i :: rest, nw, hnd, hsome => by
    obtain ⟨e, hge, hsm⟩ := hsome i (List.mem_cons_self i rest)
    obtain ⟨rep, hrep⟩ := Option.isSome_iff_exists.mp hsm
    have hni : i ∉ rest := (List.nodup_cons.mp hnd).1
    have hnd2 : rest.Nodup := (List.nodup_cons.mp hnd).2
    have hilt : i < nw.length := by
      by_contra hge2
      rw [List.getElem?_eq_none (Nat.le_of_not_lt hge2)] at hge
      cases hge
    have hyp2 : ∀ j ∈ rest, ∃ e2, (nw.set i rep)[j]? = some e2 ∧
        (g_l33t.lookup (e2.map Char.toUpper)).isSome := by
      intro j hj
      have hji : i ≠ j := fun he => hni (he ▸ hj)
      rw [List.getElem?_set_ne hji]
      exact hsome j (List.mem_cons_of_mem i hj)
    obtain ⟨nwF, happ, hout, hin⟩ := l33tApply_ok rest (nw.set i rep) hnd2 hyp2
    refine ⟨nwF, ?_, ?_, ?_⟩
    · simp only [l33tApply, hge, hrep]
      exact happ
    · intro j hj
      have hji : i ≠ j := fun he => hj (he ▸ List.mem_cons_self i rest)
      rw [hout j (fun hm => hj (List.mem_cons_of_mem i hm)), List.getElem?_set_ne hji]
    · intro j hj e2 he2
      rcases List.mem_cons.mp hj with hje | hjr
      · subst hje
        rw [hge] at he2
        cases he2
        rw [hout j hni, List.getElem?_set_eq_of_lt rep hilt, hrep]
      · have hji : i ≠ j := fun he => hni (he ▸ hjr)
        exact hin j hjr e2 (by rwa [List.getElem?_set_ne hji])

lemma flatten_singletons : ∀ (w : List Char), (w.map fun c => [c]).flatten = w
  | [] => rfl
  | c :: cs => by simp [flatten_singletons cs]

/-- C6: Leet Transformer ratio endpoints.  For a word of length 4 whose
characters all have uppercase forms in the substitution table, ratio 1.0
yields a sample size of 4 and every possible sample replaces all four
characters with their table glyphs; and for every word, ratio 0.0 yields a
sample size of 0 and the empty sample returns the word unchanged. -/
theorem word2l33t_endpoints :
    (∀ w : List Char, w.length = 4 →
      (∀ c ∈ w, (g_l33t.lookup [c.toUpper]).isSome) →
      l33tSize w 1 = 4 ∧
      ∀ s, ValidSample w.length (l33tSize w 1).toNat s →
        word2l33t w s =
          some ((w.map fun c => (g_l33t.lookup [c.toUpper]).getD []).flatten)) ∧
    (∀ w : List Char, l33tSize w 0 = 0 ∧
      ∀ s, ValidSample w.length (l33tSize w 0).toNat s → word2l33t w s = some w) := by
  constructor
  · intro w hlen hmap
    have hsize : l33tSize w 1 = 4 := by
      unfold l33tSize
      rw [hlen]
      decide
    refine ⟨hsize, ?_⟩
    intro s hs
    rw [hsize, hlen] at hs
    obtain ⟨hsl, hsnd, hslt⟩ := hs
    have hcover : ∀ j, j < 4 → j ∈ s := by
      intro j hj
      have hsub : s.toFinset ⊆ Finset.range 4 := by
        intro x hx
        rw [List.mem_toFinset] at hx
        exact Finset.mem_range.mpr (hslt x hx)
      have hcard : s.toFinset.card = 4 := by
        rw [List.toFinset_card_of_nodup hsnd, hsl]
        decide
      have heq : s.toFinset = Finset.range 4 :=
        Finset.eq_of_subset_of_card_le hsub (by rw [hcard]; simp)
      have hjm : j ∈ s.toFinset := heq ▸ Finset.mem_range.mpr hj
      rwa [List.mem_toFinset] at hjm
    have hhyp : ∀ i ∈ s, ∃ e, (w.map fun c => [c])[i]? = some e ∧
        (g_l33t.lookup (e.map Char.toUpper)).isSome := by
      intro i hi
      have hilt : i < w.length := by rw [hlen]; exact hslt i hi
      refine ⟨[w[i]], ?_, ?_⟩
      · rw [List.getElem?_map, List.getElem?_eq_getElem hilt]
        rfl
      · simpa using hmap w[i] (List.getElem_mem hilt)
    obtain ⟨nwF, happ, hout, hin⟩ := l33tApply_ok s _ hsnd hhyp
    have hnwF : nwF = w.map fun c => (g_l33t.lookup [c.toUpper]).getD [] := by
      apply List.ext_getElem?
      intro j
      rcases Nat.lt_or_ge j 4 with hj | hj
      · have hjw : j < w.length := by rw [hlen]; exact hj
        have hwj : w[j]? = some w[j] := List.getElem?_eq_getElem hjw
        have hnw0 : (w.map fun c => [c])[j]? = some [w[j]] := by
          rw [List.getElem?_map, hwj]
          rfl
        have hstep := hin j (hcover j hj) [w[j]] hnw0
        obtain ⟨v, hv⟩ := Option.isSome_iff_exists.mp (hmap w[j] (List.getElem_mem hjw))
        rw [List.getElem?_map, hwj, hstep]
        simp [hv]
      · have hjw : w.length ≤ j := by omega
        have hjs : j ∉ s := fun hm => by
          have := hslt j hm
          omega
        rw [hout j hjs, List.getElem?_map, List.getElem?_map,
          List.getElem?_eq_none hjw]
        rfl
    unfold word2l33t
    rw [happ, hnwF]
    rfl
  · intro w
    have hsize : l33tSize w 0 = 0 := by
      unfold l33tSize pyRoundMul
      norm_num
    refine ⟨hsize, ?_⟩
    intro s hs
    rw [hsize] at hs
    obtain ⟨hsl, -, -⟩ := hs
    rw [List.length_eq_zero.mp hsl]
    unfold word2l33t l33tApply
    rw [Option.map_some']
    rw [flatten_singletons]

/-- C6 witness: with ratio 1.0, the fully mappable word "abcd" and the
concrete sample [2, 0, 3, 1] substitute every character; with ratio 0.0
the word "x7" passes through unchanged on the empty sample. -/
theorem word2l33t_endpoints_witness :
    (l33tSize ['a', 'b', 'c', 'd'] 1 = 4 ∧
      word2l33t ['a', 'b', 'c', 'd'] [2, 0, 3, 1] =
        some ((['a', 'b', 'c', 'd'].map fun c => (g_l33t.lookup [c.toUpper]).getD []).flatten)) ∧
    (l33tSize ['x', '7'] 0 = 0 ∧ word2l33t ['x', '7'] [] = some ['x', '7']) :=
  ⟨⟨(word2l33t_endpoints.1 ['a', 'b', 'c', 'd'] (by decide) (by decide)).1,
    (word2l33t_endpoints.1 ['a', 'b', 'c', 'd'] (by decide) (by decide)).2
      [2, 0, 3, 1] (by decide)⟩,
   ⟨(word2l33t_endpoints.2 ['x', '7']).1,
    (word2l33t_endpoints.2 ['x', '7']).2 [] (by decide)⟩⟩

/-- C7: Leet Transformer latent failure.  The sample positions range over
all character indices of the word, but the table only covers letters: on
the word "a1" with ratio 1.0 the sample size is 2, the sample [1, 0] is a
possible outcome of `random.sample(range(2), 2)`, position 1 holds the
digit '1' whose uppercase form has no table entry, and `word2l33t` raises
`KeyError` (`none`) instead of returning a result. -/
theorem word2l33t_latent_failure :
    ValidSample (['a', '1'].length) (l33tSize ['a', '1'] 1).toNat [1, 0] ∧
    g_l33t.lookup [('1').toUpper] = none ∧
    word2l33t ['a', '1'] [1, 0] = none := by decide

/-- Configuration with every flag at its parser default. -/
def argsDefault : RawArgs := {}

/-- Identity iteration-order oracle with trivial random streams. -/
def idOracle : Oracles := ⟨fun l => l, fun _ => 0, fun _ _ _ => []⟩

/-- Reversing iteration-order oracle with the same trivial random streams. -/
def revOracle : Oracles := ⟨List.reverse, fun _ => 0, fun _ _ _ => []⟩

lemma printLoop_grid (a : RawArgs) (o : Oracles) (hl : ratTruthy a.l33t = false) :
    ∀ (ws : List (List Char)) (i : Nat), i % 5 = 1 →
      printLoop a o i ws = some (gridRender ws)
  | [], _, _ => rfl
  | [w1], i, hi => by
    have h1 : i % 5 ≠ 0 := by omega
    simp [printLoop, gridRender, hl, h1]
  | [w1, w2], i, hi => by
    have h1 : i % 5 ≠ 0 := by omega
    have h2 : (i + 1) % 5 ≠ 0 := by omega
    simp [printLoop, gridRender, hl, h1, h2]
  | [w1, w2, w3], i, hi => by
    have h1 : i % 5 ≠ 0 := by omega
    have h2 : (i + 1) % 5 ≠ 0 := by omega
    have h3 : (i + 1 + 1) % 5 ≠ 0 := by omega
    simp [printLoop, gridRender, hl, h1, h2, h3]
  | [w1, w2, w3, w4], i, hi => by
    have h1 : i % 5 ≠ 0 := by omega
    have h2 : (i + 1) % 5 ≠ 0 := by omega
    have h3 : (i + 1 + 1) % 5 ≠ 0 := by omega
    have h4 : (i + 1 + 1 + 1) % 5 ≠ 0 := by omega
    simp [printLoop, gridRender, hl, h1, h2, h3, h4]
  | w1 :: w2 :: w3 :: w4 :: w5 :: rest, i, hi => by
    have h1 : i % 5 ≠ 0 := by omega
    have h2 : (i + 1) % 5 ≠ 0 := by omega
    have h3 : (i + 1 + 1) % 5 ≠ 0 := by omega
    have h4 : (i + 1 + 1 + 1) % 5 ≠ 0 := by omega
    have h5 : (i + 1 + 1 + 1 + 1) % 5 = 0 := by omega
    have hrec := printLoop_grid a o hl rest (i + 1 + 1 + 1 + 1 + 1) (by omega)
    simp [printLoop, gridRender, hl, h1, h2, h3, h4, h5, hrec]

/-- C8 counterexample: on the five one-character words a b c d e, the code
prints the fifth word of the row bare (`print(word)`), not left-justified
to a 20-column field as the claim asserts of every word; the characters
actually written differ from the claim's rendering. -/
theorem print_grid_counterexample :
    (printLoop argsDefault idOracle 1 [['a'], ['b'], ['c'], ['d'], ['e']]).map flattenEvs ≠
      some (flattenEvs (claimGrid [['a'], ['b'], ['c'], ['d'], ['e']])) := by decide

/-- C8 amended: in a run without the leet transform, the output loop prints
five words per row — the first four of each full row left-justified to 20
columns followed by two spaces, the fifth bare followed by a newline and a
blocking one-line input pause — and a trailing partial row entirely in the
padded two-space format. -/
theorem print_grid_amended (a : RawArgs) (o : Oracles) (ws : List (List Char))
    (hl : ratTruthy a.l33t = false) :
    printLoop a o 1 ws = some (gridRender ws) :=
  printLoop_grid a o hl ws 1 (by decide)

/-- C8 witness: the amended grid shape on a concrete seven-word list. -/
theorem print_grid_amended_witness :
    printLoop argsDefault idOracle 1
        [['a'], ['b'], ['c'], ['d'], ['e'], ['f'], ['g']] =
      some (gridRender [['a'], ['b'], ['c'], ['d'], ['e'], ['f'], ['g']]) :=
  print_grid_amended argsDefault idOracle
    [['a'], ['b'], ['c'], ['d'], ['e'], ['f'], ['g']] (by decide)

/-- C9 amended: a run of `main` is a function of the configuration, the
word-list files, and the oracles: with the same seed (hence the same
`random.choice`/`random.sample` streams) and additionally the same set
iteration order, two runs produce identical output.  The set iteration
order is the one input `--seed` does not control: Python's per-process
salted string hashing reorders the sets between real runs. -/
theorem seed_determinism_amended (a : RawArgs) (fs : List Char → Option (List (List Char)))
    (o1 o2 : Oracles) (hord : o1.order = o2.order) (hch : o1.choice = o2.choice)
    (hsa : o1.sample = o2.sample) : mainModel a fs o1 = mainModel a fs o2 := by
  obtain ⟨or1, c1, s1⟩ := o1
  obtain ⟨or2, c2, s2⟩ := o2
  cases hord
  cases hch
  cases hsa
  rfl

/-- C9 witness: the amended statement applied to two concrete oracle records
with definitionally equal components. -/
theorem seed_determinism_amended_witness :
    mainModel argsDefault (fun _ => none) idOracle =
      mainModel argsDefault (fun _ => none) ⟨fun l => l, fun n => n * 0, fun _ _ _ => []⟩ :=
  seed_determinism_amended argsDefault (fun _ => none) idOracle
    ⟨fun l => l, fun n => n * 0, fun _ _ _ => []⟩ rfl (funext fun n => by simp [idOracle]) rfl

/-- Word-list file system of the determinism counterexample: `words.txt`
holds the two words ab and cd. -/
def fsTwoWords : List Char → Option (List (List Char)) :=
  fun name => if name = words_file then some [['a', 'b'], ['c', 'd']] else none

/-- C9 counterexample: two runs with identical flags (all defaults, so the
same seed), identical files and identical random streams, whose set
iteration orders are both valid permutations of the set but differ, print
the two surviving words in different orders.  This is exactly what happens
across two real processes with the same `--seed`: salted string hashing
changes the set order, so equal seeds do not imply identical output. -/
theorem seed_determinism_counterexample :
    ValidOrder idOracle.order ∧ ValidOrder revOracle.order ∧
    idOracle.choice = revOracle.choice ∧ idOracle.sample = revOracle.sample ∧
    mainModel argsDefault fsTwoWords idOracle ≠
      mainModel argsDefault fsTwoWords revOracle :=
  ⟨fun l => List.Perm.refl l, fun l => List.reverse_perm l, rfl, rfl, by decide⟩

/-- C4: empty-result handling in the duo modes.  If either filtered word
set is empty, `get_duos` falls through and yields no result (`None`, not an
error), and `main` prints the single informational message and returns
normally — the process exits with status zero. -/
theorem get_duos_empty_spec (a : RawArgs) (fs : List Char → Option (List (List Char)))
    (o : Oracles) (f1 f2 : List Char) (nums : Option Int × Option Int)
    (lines1 lines2 : List (List Char))
    (hval : get_args_check a = none) (hduo : duoFiles a = some (f1, f2))
    (hnums : duoNums a.num = some nums)
    (h1 : fs f1 = some lines1) (h2 : fs f2 = some lines2)
    (hempty : get_words lines1 nums.1 a = [] ∨ get_words lines2 nums.2 a = []) :
    get_duos fs f1 f2 a o = some (.ok none) ∧
    mainModel a fs o = .ok [.text noWordsMsg] := by
  have hdu : get_duos fs f1 f2 a o = some (.ok none) := by
    simp only [get_duos, hnums, runGetWords, h1, h2]
    rcases hempty with he | he
    · rw [he]
      simp
    · rw [he]
      simp
  refine ⟨hdu, ?_⟩
  simp only [mainModel, hval, hduo, hdu, wordsTruthy]
  rfl

/-- C4 witness: adjective-noun mode with an empty adjectives list and a
one-word nouns list. -/
def fsAdjEmpty : List Char → Option (List (List Char)) :=
  fun name => if name = adjs_file then some [] else
    if name = noun_file then some [['a']] else none

theorem get_duos_empty_witness :
    get_duos fsAdjEmpty adjs_file noun_file { adj_noun := true } idOracle =
      some (.ok none) ∧
    mainModel { adj_noun := true } fsAdjEmpty idOracle = .ok [.text noWordsMsg] :=
  get_duos_empty_spec { adj_noun := true } fsAdjEmpty idOracle adjs_file noun_file
    (none, none) [] [['a']] (by decide) (by decide) (by decide) (by decide) (by decide)
    (Or.inl (by decide))
